import Mathlib

/-!
Verification of the digital-twins avatar pipeline (profile generator, mesh
assembler, morph-target synthesizer, GLB asset serializer) against its
natural-language specification.  The Python sources embedded here are
`create_ultra_detailed_avatar.py` and `create_fixed_avatar.py` from
`digital_twins_assets`.  Real-number code (trigonometry, square roots,
exponentials) is modelled over `ℝ`; index/byte bookkeeping is modelled over
`ℕ` so that it stays executable.
-/

/-- A 3D point or displacement, `(x, y, z)` with `y` vertical, matching the
coordinate convention of the sources. -/
abbrev Vec3 : Type := ℝ × ℝ × ℝ

/-- Componentwise addition, the meaning of `+` on numpy `(n,3)` rows. -/
def vadd (a b : Vec3) : Vec3 := (a.1 + b.1, a.2.1 + b.2.1, a.2.2 + b.2.2)

/-- Scalar multiplication of a row vector, the meaning of `array * c`. -/
def vsc (c : ℝ) (a : Vec3) : Vec3 := (c * a.1, c * a.2.1, c * a.2.2)

/-- The zero displacement row. -/
def vzero : Vec3 := (0, 0, 0)

/-! Profile generator.

`create_ellipsoid_profile` in `create_ultra_detailed_avatar.py` (lines 10-33):
`angles = np.linspace(0, 2*pi, n_pts, endpoint=False)` gives
`angle = 2*pi*i/n_pts`; then `x = width_x*cos(angle)`, `z = depth_z*sin(angle)`,
the back (`z < 0`) is scaled by `1 - back_flat`, the front (`z > 0`) by
`1 - front_flat*0.3`, and when `|cos angle| > 0.7` the lateral coordinate is
scaled by `1 + side_bulge`.  The result is the list of `(x, z)` pairs. -/
noncomputable def create_ellipsoid_profile (width_x depth_z : ℝ) (n_pts : ℕ)
    (front_flat back_flat side_bulge : ℝ) : List (ℝ × ℝ) :=
  (List.range n_pts).map fun (i : ℕ) =>
    let angle : ℝ := 2 * Real.pi * (i : ℝ) / (n_pts : ℝ)
    let x0 := width_x * Real.cos angle
    let z0 := depth_z * Real.sin angle
    let z1 := if z0 < 0 then z0 * (1 - back_flat) else z0
    let z2 := if z1 > 0 then z1 * (1 - front_flat * 0.3) else z1
    let x1 := if |Real.cos angle| > 0.7 then x0 * (1 + side_bulge) else x0
    (x1, z2)

lemma create_ellipsoid_profile_length (wx dz : ℝ) (n : ℕ) (ff bf sb : ℝ) :
    (create_ellipsoid_profile wx dz n ff bf sb).length = n := by
  rw [create_ellipsoid_profile, List.length_map, List.length_range]

/-- Radial distance of a profile point from the vertical height axis. -/
noncomputable def radialDist (p : ℝ × ℝ) : ℝ := Real.sqrt (p.1 ^ 2 + p.2 ^ 2)

lemma sqrt_sq_add_sq_le (a b : ℝ) : Real.sqrt (a ^ 2 + b ^ 2) ≤ |a| + |b| := by
  rw [show |a| + |b| = Real.sqrt ((|a| + |b|) ^ 2) by rw [Real.sqrt_sq (by positivity)]]
  apply Real.sqrt_le_sqrt
  nlinarith [sq_abs a, sq_abs b, mul_nonneg (abs_nonneg a) (abs_nonneg b)]

lemma abs_mul_le_of_le {x c m : ℝ} (hm : 0 ≤ m) (hx : |x| ≤ c) : |x * m| ≤ c * m := by
  rw [abs_mul, abs_of_nonneg hm]
  exact mul_le_mul_of_nonneg_right hx hm

/-- C7 counterexample: with `radiusX = 1 > radiusZ = 1/2`, `pointCount = 4` and
`lateralBulge = 1` (all hypotheses of the claim satisfied), the first generated
point is `(2, 0)`: its radial distance is `2`, which exceeds
`radiusX + radiusZ = 3/2`.  The claimed bound `[0, radiusX + radiusZ]` is
therefore false. -/
theorem ellipsoid_profile_radial_bound_fails :
    ¬ (∀ p ∈ create_ellipsoid_profile 1 (1/2) 4 0 0 1,
        radialDist p ≤ 1 + 1/2) := by
  intro h
  have hmem : ((2 : ℝ), (0 : ℝ)) ∈ create_ellipsoid_profile 1 (1/2) 4 0 0 1 := by
    rw [create_ellipsoid_profile]
    refine List.mem_map.mpr ⟨0, List.mem_range.mpr (by norm_num), ?_⟩
    simp only [Nat.cast_zero, Nat.cast_ofNat, mul_zero, zero_div, Real.cos_zero,
      Real.sin_zero]
    norm_num
  have hb := h _ hmem
  rw [radialDist] at hb
  have h4 : ((2 : ℝ) ^ 2 + 0 ^ 2) = 2 ^ 2 := by norm_num
  rw [h4, Real.sqrt_sq (by norm_num)] at hb
  norm_num at hb

/-- C7, amended: for positive radii, `pointCount ≥ 3` and asymmetry parameters
in `[0,1]`, the generated ring has exactly `pointCount` points, and the
radial distance of each point from the height axis lies in
`[0, (1 + lateralBulge) * radiusX + radiusZ]` (the lateral-bulge branch can
scale the `x` coordinate up to `(1 + lateralBulge) * radiusX`, so the claimed
bound `radiusX + radiusZ` must be enlarged by that factor). -/
theorem ellipsoid_profile_count_and_radial_bound
    (wx dz : ℝ) (n : ℕ) (ff bf sb : ℝ)
    (hwx : 0 < wx) (hdz : 0 < dz) (hn : 3 ≤ n)
    (hff0 : 0 ≤ ff) (hff1 : ff ≤ 1) (hbf0 : 0 ≤ bf) (hbf1 : bf ≤ 1)
    (hsb0 : 0 ≤ sb) (hsb1 : sb ≤ 1) :
    (create_ellipsoid_profile wx dz n ff bf sb).length = n ∧
      ∀ p ∈ create_ellipsoid_profile wx dz n ff bf sb,
        0 ≤ radialDist p ∧ radialDist p ≤ (1 + sb) * wx + dz := by
  refine ⟨create_ellipsoid_profile_length wx dz n ff bf sb, ?_⟩
  intro p hp
  refine ⟨Real.sqrt_nonneg _, ?_⟩
  rw [create_ellipsoid_profile] at hp
  obtain ⟨i, -, hpi⟩ := List.mem_map.mp hp
  subst hpi
  simp only [radialDist]
  set angle : ℝ := 2 * Real.pi * i / n with hangle
  set x0 := wx * Real.cos angle with hx0
  set z0 := dz * Real.sin angle with hz0
  set z1 := if z0 < 0 then z0 * (1 - bf) else z0 with hz1
  set z2 := if z1 > 0 then z1 * (1 - ff * 0.3) else z1 with hz2
  set x1 := if |Real.cos angle| > 0.7 then x0 * (1 + sb) else x0 with hx1
  have hxabs : |x0| ≤ wx := by
    rw [hx0, abs_mul, abs_of_pos hwx]
    calc wx * |Real.cos angle| ≤ wx * 1 :=
          mul_le_mul_of_nonneg_left (Real.abs_cos_le_one angle) hwx.le
      _ = wx := mul_one wx
  have hzabs : |z0| ≤ dz := by
    rw [hz0, abs_mul, abs_of_pos hdz]
    calc dz * |Real.sin angle| ≤ dz * 1 :=
          mul_le_mul_of_nonneg_left (Real.abs_sin_le_one angle) hdz.le
      _ = dz := mul_one dz
  have hz1abs : |z1| ≤ dz := by
    rw [hz1]
    split
    · exact le_trans (abs_mul_le_of_le (by linarith) (le_refl _)) (by nlinarith)
    · exact hzabs
  have hz2abs : |z2| ≤ dz := by
    rw [hz2]
    split
    · exact le_trans (abs_mul_le_of_le (by linarith) (le_refl _)) (by nlinarith)
    · exact hz1abs
  have hx1abs : |x1| ≤ (1 + sb) * wx := by
    rw [hx1]
    split
    · calc |x0 * (1 + sb)| ≤ wx * (1 + sb) :=
            abs_mul_le_of_le (by linarith) hxabs
        _ = (1 + sb) * wx := mul_comm _ _
    · nlinarith [abs_nonneg x0]
  calc Real.sqrt (x1 ^ 2 + z2 ^ 2) ≤ |x1| + |z2| := sqrt_sq_add_sq_le x1 z2
    _ ≤ (1 + sb) * wx + dz := add_le_add hx1abs hz2abs

/-- C7 witness: the amended bound theorem applied at concrete inputs
`radiusX = 1`, `radiusZ = 1`, `pointCount = 3`, asymmetries all `0`. -/
theorem ellipsoid_profile_count_and_radial_bound_witness :
    (0:ℝ) < 1 ∧
      ((create_ellipsoid_profile 1 1 3 0 0 0).length = 3 ∧
        ∀ p ∈ create_ellipsoid_profile 1 1 3 0 0 0,
          0 ≤ radialDist p ∧ radialDist p ≤ (1 + 0) * 1 + 1) :=
  ⟨by norm_num,
    ellipsoid_profile_count_and_radial_bound 1 1 3 0 0 0
      (by norm_num) (by norm_num) (by norm_num) (by norm_num) (by norm_num)
      (by norm_num) (by norm_num) (by norm_num) (by norm_num)⟩

/-! Mesh assembler.

`create_detailed_human_body` in `create_ultra_detailed_avatar.py`
(lines 35-164).  The source iterates over an `anatomy` table of tuples
`(y_rel, width_x, depth_z, n_points, front_flat, back_flat, side_bulge)`,
appends one ring of vertices per entry, stitches each ring to the previous one
(lines 129-147), and finally closes the last ring with a fan to a synthetic
apex vertex and the first ring with a fan to a synthetic sole vertex
(lines 149-162).  The table is a parameter here so that the assembly loop can
be examined on arbitrary ring sequences. -/
structure UProfile where
  yRel : ℝ
  widthX : ℝ
  depthZ : ℝ
  nPts : ℕ
  frontFlat : ℝ
  backFlat : ℝ
  sideBulge : ℝ

/-- A triangle as an index triple, matching `faces.append([i0, i1, i2])`. -/
abbrev Face := ℕ × ℕ × ℕ

/-- One stitched band between adjacent rings (source lines 136-145): walk
`max prev_n curr_n` steps, map each step into both rings by proportional
down-sampling, and emit one or two triangles unless all corners repeat. -/
def stitchBand (prevStart currStart prevN currN : ℕ) : List Face :=
  (List.range (max prevN currN)).flatMap fun j =>
    let m := max prevN currN
    let p := prevStart + (j * prevN / m) % prevN
    let c := currStart + (j * currN / m) % currN
    let pn := prevStart + ((j + 1) * prevN / m) % prevN
    let cn := currStart + ((j + 1) * currN / m) % currN
    if p ≠ pn ∨ c ≠ cn then
      (p, c, cn) :: (if p ≠ pn then [(p, cn, pn)] else [])
    else []

/-- All stitched bands of a ring sequence, given the point count of each ring;
`prevStart` is the running `current_idx - prev_n` of the source. -/
def sideFacesAux (prevStart prevN : ℕ) : List ℕ → List Face
  | [] => []
  | c :: rest =>
      stitchBand prevStart (prevStart + prevN) prevN c ++
        sideFacesAux (prevStart + prevN) c rest

/-- Side (band) faces of the whole ring sequence: ring `i` starts at vertex
index `n_0 + ... + n_(i-1)`, exactly the `current_idx` bookkeeping of the source. -/
def sideFaces : List ℕ → List Face
  | [] => []
  | n :: rest => sideFacesAux 0 n rest

/-- Scalp-apex cap fan (source lines 150-155). -/
def topFanFaces (start center n : ℕ) : List Face :=
  (List.range n).map fun j => (start + j, center, start + (j + 1) % n)

/-- Sole cap fan (source lines 157-162). -/
def bottomFanFaces (n center : ℕ) : List Face :=
  (List.range n).map fun j => (j, (j + 1) % n, center)

/-- Every face of the assembled body, in the emission order of the source: the
stitched bands (interleaved with ring construction in the source, but emitted
in the same ring order), then the top fan, then the bottom fan.  The synthetic
apex vertex has index `sum of all point counts` and the synthetic sole vertex
the next index. -/
def bodyFaces (counts : List ℕ) : List Face :=
  match counts with
  | [] => []
  | n0 :: rest =>
    let total := (n0 :: rest).sum
    let topN := (n0 :: rest).getLastD n0
    sideFaces (n0 :: rest) ++ topFanFaces (total - topN) total topN ++
      bottomFanFaces n0 (total + 1)

/-- Ring vertices of one profile (source lines 123-127): the 2D ellipsoid
profile lifted to height `y_rel * height`. -/
noncomputable def ringVertices (p : UProfile) (height : ℝ) : List Vec3 :=
  (create_ellipsoid_profile p.widthX p.depthZ p.nPts
      p.frontFlat p.backFlat p.sideBulge).map
    fun q => (q.1, p.yRel * height, q.2)

/-- Every vertex of the assembled body: all ring vertices in table order,
then the apex vertex `[0, anatomy[-1][0]*height + 0.01, 0]` (line 153), then
the sole vertex `[0, 0.005, 0.04]` (line 160). -/
noncomputable def bodyVertices (anatomy : List UProfile) (height : ℝ) : List Vec3 :=
  match anatomy with
  | [] => []
  | a :: rest =>
    ((a :: rest).flatMap fun p => ringVertices p height) ++
      [(0, ((a :: rest).getLastD a).yRel * height + 0.01, 0), (0, 0.005, 0.04)]

/-- The assembler as called by the pipeline.  On an empty profile table the
source raises an unhandled `IndexError` at `anatomy[-1]` (modelled as `none`);
on any non-empty table it returns the mesh with no validation of the ring
count whatsoever. -/
noncomputable def create_detailed_human_body (anatomy : List UProfile) (height : ℝ) :
    Option (List Vec3 × List Face) :=
  match anatomy with
  | [] => none
  | a :: rest =>
      some (bodyVertices (a :: rest) height,
        bodyFaces ((a :: rest).map UProfile.nPts))

lemma ringVertices_length (p : UProfile) (h : ℝ) :
    (ringVertices p h).length = p.nPts := by
  rw [ringVertices, List.length_map, create_ellipsoid_profile_length]

/-- The 4-profile minimal torso of the C3 scenario: four rings of 8 points at
heights 0, 1/3, 2/3, 1, no asymmetry. -/
noncomputable def demoProfiles : List UProfile :=
  [⟨0, 1, 1, 8, 0, 0, 0⟩, ⟨1/3, 1, 1, 8, 0, 0, 0⟩,
   ⟨2/3, 1, 1, 8, 0, 0, 0⟩, ⟨1, 1, 1, 8, 0, 0, 0⟩]

/-- C3: stitching the 4-ring, 8-points-per-ring torso produces exactly 48 side
faces, 64 faces in total (48 band triangles plus two 8-triangle cap fans), and
34 vertices (32 ring vertices plus the two synthetic cap centers). -/
theorem minimal_torso_face_and_vertex_counts :
    (bodyVertices demoProfiles 1).length = 34 ∧
      (sideFaces (demoProfiles.map UProfile.nPts)).length = 48 ∧
      (bodyFaces (demoProfiles.map UProfile.nPts)).length = 64 := by
  refine ⟨?_, by decide, by decide⟩
  rw [demoProfiles, bodyVertices]
  simp [List.length_append, ringVertices_length]

/-- C5 counterexample: on a single-ring sequence (fewer than 2 entries, hence
zero side faces) the assembler does not report any error: it returns a
cap-only mesh of 16 fan faces as if assembly had succeeded. -/
theorem single_ring_assembly_succeeds :
    (create_detailed_human_body [⟨0, 1, 1, 8, 0, 0, 0⟩] 1).isSome = true ∧
      sideFaces [8] = [] ∧ (bodyFaces [8]).length = 16 :=
  ⟨rfl, rfl, by decide⟩

/-- C5, amended: the assembler has no short-sequence guard at all.  On an
empty ring sequence it fails with an unhandled index error (`none`); on a
one-ring sequence stitching produces zero side faces, yet the assembler
silently returns the cap-only mesh (two fans, `2 * pointCount` faces) with no
construction error. -/
theorem assembler_short_sequence_behavior (p : UProfile) (h : ℝ) :
    create_detailed_human_body [] h = none ∧
      create_detailed_human_body [p] h =
        some (bodyVertices [p] h, bodyFaces [p.nPts]) ∧
      sideFaces [p.nPts] = [] ∧
      (bodyFaces [p.nPts]).length = 2 * p.nPts := by
  refine ⟨rfl, rfl, rfl, ?_⟩
  rw [bodyFaces]
  simp [sideFaces, sideFacesAux, stitchBand, topFanFaces, bottomFanFaces,
    List.length_append]
  omega

/-! Morph target synthesizer.

Both sources compute each displacement field by one pass over the vertex
array, writing a row per vertex; the per-vertex bodies are embedded as
pointwise functions and lifted with `List.map`.  `create_ultra_detailed_avatar.py`
uses `y_norm = v[1] / height`; `create_fixed_avatar.py` uses
`y_norm = (v[1] - y_min) / (y_max - y_min)` with the bounds taken over the
mesh. -/

/-- Weight row of `create_ultra_detailed_avatar.create_morph_targets`
(lines 231-243): radial push scaled by a torso-centred Gaussian, guarded by
`dist > 0.01`. -/
noncomputable def ultraWeightAt (height : ℝ) (v : Vec3) : Vec3 :=
  let y_norm := v.2.1 / height
  let dist := Real.sqrt (v.1 ^ 2 + v.2.2 ^ 2)
  if dist > 0.01 then
    let torso_factor := Real.exp (-((y_norm - 0.65) ^ 2) / 0.08)
    let factor := 0.07 * (0.25 + 0.75 * torso_factor)
    (v.1 / dist * factor, 0, v.2.2 / dist * factor)
  else vzero

/-- The Weight field of the ultra-detailed variant over a whole mesh. -/
noncomputable def ultraWeightField (height : ℝ) (verts : List Vec3) : List Vec3 :=
  verts.map (ultraWeightAt height)

/-- Mesh height bound `vertices[:, 1].min()` used by
`create_fixed_avatar.create_morph_targets` (line 321). -/
noncomputable def yMinOf (verts : List Vec3) : ℝ :=
  match verts with
  | [] => 0
  | v :: rest => (rest.map fun w => w.2.1).foldl min v.2.1

/-- Mesh height bound `vertices[:, 1].max()` (line 321). -/
noncomputable def yMaxOf (verts : List Vec3) : ℝ :=
  match verts with
  | [] => 0
  | v :: rest => (rest.map fun w => w.2.1).foldl max v.2.1

/-- Weight row of `create_fixed_avatar.create_morph_targets` (lines 324-342):
band `0.2 < y_norm < 0.9`, radial direction normalised by
`norm([x,0,z]) + 1e-6`, guarded by `dist_from_center > 0.02`, with a
height-dependent factor (1.5 on the abdomen band, 1.2 on the thigh band,
1.0 elsewhere) and `SCALE = 0.05`. -/
noncomputable def fixedWeightAt (yMin yMax : ℝ) (v : Vec3) : Vec3 :=
  let y_norm := (v.2.1 - yMin) / (yMax - yMin)
  if 0.2 < y_norm ∧ y_norm < 0.9 then
    let dist_from_center := Real.sqrt (v.1 ^ 2 + v.2.2 ^ 2)
    if dist_from_center > 0.02 then
      let nrm := Real.sqrt (v.1 ^ 2 + 0 ^ 2 + v.2.2 ^ 2) + 1e-6
      let factor : ℝ :=
        if 0.5 < y_norm ∧ y_norm < 0.7 then 1.5
        else if 0.3 < y_norm ∧ y_norm < 0.5 then 1.2 else 1
      vsc (0.05 * factor) (v.1 / nrm, 0 / nrm, v.2.2 / nrm)
    else vzero
  else vzero

/-- The Weight field of the fixed variant over a whole mesh. -/
noncomputable def fixedWeightField (verts : List Vec3) : List Vec3 :=
  verts.map (fixedWeightAt (yMinOf verts) (yMaxOf verts))

lemma ultraWeightAt_midline (height y : ℝ) :
    ultraWeightAt height (0, y, 0) = vzero := by
  simp only [ultraWeightAt]
  norm_num [Real.sqrt_zero]

lemma fixedWeightAt_midline (yMin yMax y : ℝ) :
    fixedWeightAt yMin yMax (0, y, 0) = vzero := by
  simp only [fixedWeightAt]
  norm_num [Real.sqrt_zero]

/-- C8: on a mesh whose vertices all lie on the midline (`x = z = 0`), the
Weight morph field is the zero vector at every vertex, in both the
ultra-detailed variant (guard `dist > 0.01`) and the fixed variant (guard
`dist_from_center > 0.02`): the radial-normalisation branch is unreachable. -/
theorem midline_weight_field_zero (height : ℝ) (verts : List Vec3)
    (hm : ∀ v ∈ verts, v.1 = 0 ∧ v.2.2 = 0) :
    (∀ d ∈ ultraWeightField height verts, d = vzero) ∧
      (∀ d ∈ fixedWeightField verts, d = vzero) := by
  constructor
  · intro d hd
    obtain ⟨v, hv, hdv⟩ := List.mem_map.mp hd
    obtain ⟨h1, h2⟩ := hm v hv
    obtain ⟨x, y, z⟩ := v
    simp only at h1 h2
    subst h1; subst h2
    rw [← hdv]
    exact ultraWeightAt_midline height y
  · intro d hd
    obtain ⟨v, hv, hdv⟩ := List.mem_map.mp hd
    obtain ⟨h1, h2⟩ := hm v hv
    obtain ⟨x, y, z⟩ := v
    simp only at h1 h2
    subst h1; subst h2
    rw [← hdv]
    exact fixedWeightAt_midline _ _ y

/-- C8 witness: the midline theorem applied to the concrete two-vertex
midline mesh `[(0,0,0), (0,1,0)]` at height 1. -/
theorem midline_weight_field_zero_witness :
    (∀ v ∈ [((0:ℝ), (0:ℝ), (0:ℝ)), ((0:ℝ), (1:ℝ), (0:ℝ))], v.1 = 0 ∧ v.2.2 = 0) ∧
      ((∀ d ∈ ultraWeightField 1 [((0:ℝ), (0:ℝ), (0:ℝ)), ((0:ℝ), (1:ℝ), (0:ℝ))],
          d = vzero) ∧
        (∀ d ∈ fixedWeightField [((0:ℝ), (0:ℝ), (0:ℝ)), ((0:ℝ), (1:ℝ), (0:ℝ))],
          d = vzero)) := by
  have hm : ∀ v ∈ [((0:ℝ), (0:ℝ), (0:ℝ)), ((0:ℝ), (1:ℝ), (0:ℝ))],
      v.1 = 0 ∧ v.2.2 = 0 := by
    intro v hv
    rcases List.mem_cons.mp hv with h | h
    · subst h; exact ⟨rfl, rfl⟩
    · rw [List.mem_singleton] at h
      subst h; exact ⟨rfl, rfl⟩
  exact ⟨hm, midline_weight_field_zero 1 _ hm⟩

/-- AbdomenGirth row of `create_ultra_detailed_avatar.create_morph_targets`
(lines 246-257): Gaussian height factor centred at `y_norm = 0.60`;
only anterior vertices (`v[2] > 0`) get a displacement: forward component
`0.15 * y_factor * min(v[2]/0.08, 1)` and, when `|v[0]| > 0.05`, an
additional lateral component `sign(v[0]) * 0.03 * y_factor`. -/
noncomputable def ultraAbdomenAt (height : ℝ) (v : Vec3) : Vec3 :=
  let y_norm := v.2.1 / height
  let y_factor := Real.exp (-((y_norm - 0.60) ^ 2) / 0.015)
  if v.2.2 > 0 then
    let front_factor := min (v.2.2 / 0.08) 1
    let ax := if |v.1| > 0.05 then Real.sign v.1 * 0.03 * y_factor else 0
    (ax, 0, 0.15 * y_factor * front_factor)
  else vzero

/-- AbdomenGirth row of `create_fixed_avatar.create_morph_targets`
(lines 348-364): band `0.5 < y_norm < 0.75`, radial direction normalised by
`norm([x,0,z]) + 1e-6`, front bias `1 + 0.5 * max(0, v[2]/(|v[2]|+0.01))`,
Gaussian centred at `y_norm = 0.62`, overall scale `SCALE * 1.5`. -/
noncomputable def fixedAbdomenAt (yMin yMax : ℝ) (v : Vec3) : Vec3 :=
  let y_norm := (v.2.1 - yMin) / (yMax - yMin)
  if 0.5 < y_norm ∧ y_norm < 0.75 then
    let dist := Real.sqrt (v.1 ^ 2 + v.2.2 ^ 2)
    if dist > 0.02 then
      let nrm := Real.sqrt (v.1 ^ 2 + 0 ^ 2 + v.2.2 ^ 2) + 1e-6
      let front_factor := 1 + 0.5 * max 0 (v.2.2 / (|v.2.2| + 0.01))
      let y_factor := Real.exp (-((y_norm - 0.62) ^ 2) / 0.01)
      vsc (0.05 * 1.5 * front_factor * y_factor) (v.1 / nrm, 0 / nrm, v.2.2 / nrm)
    else vzero
  else vzero

/-- C4 counterexample: at the concrete anterior vertex `(0.1, 0.6, 0.05)`
(height 1) the ultra-detailed AbdomenGirth displacement has lateral
X-component `0.03 ≠ 0`, so the displacement is not purely in the front (+Z)
direction. -/
theorem abdomen_displacement_not_pure_front :
    (ultraAbdomenAt 1 (0.1, 0.6, 0.05)).1 ≠ 0 := by
  have he : ((0.6 : ℝ) / 1 - 0.60) = 0 := by norm_num
  simp only [ultraAbdomenAt, he]
  norm_num [Real.sign_of_pos, abs_of_pos, Real.exp_zero]

/-- C4, amended: in the ultra-detailed variant every posterior vertex
(`z ≤ 0`) receives exactly the zero displacement and the vertical component
is always zero, but the displacement is not purely `+Z` — anterior vertices
with `|x| > 0.05` also receive a lateral X component; and in the fixed
variant the displacement is radial with a front bias rather than front-only:
the posterior band vertex `(0, 0.6, -0.1)` (with height bounds 0 and 1)
receives a nonzero displacement. -/
theorem abdomen_front_effect_behavior :
    (∀ (height : ℝ) (v : Vec3), v.2.2 ≤ 0 → ultraAbdomenAt height v = vzero) ∧
      (∀ (height : ℝ) (v : Vec3), (ultraAbdomenAt height v).2.1 = 0) ∧
      fixedAbdomenAt 0 1 (0, 0.6, -(0.1 : ℝ)) ≠ vzero := by
  refine ⟨?_, ?_, ?_⟩
  · intro height v hz
    simp only [ultraAbdomenAt]
    rw [if_neg (not_lt.mpr hz)]
  · intro height v
    simp only [ultraAbdomenAt]
    split
    · rfl
    · rfl
  · have hsq : Real.sqrt ((0 : ℝ) ^ 2 + (-(0.1 : ℝ)) ^ 2) = 0.1 := by
      rw [show ((0 : ℝ) ^ 2 + (-(0.1 : ℝ)) ^ 2) = (0.1 : ℝ) ^ 2 by norm_num,
        Real.sqrt_sq (by norm_num)]
    have hsq2 : Real.sqrt ((0 : ℝ) ^ 2 + (0 : ℝ) ^ 2 + (-(0.1 : ℝ)) ^ 2) = 0.1 := by
      rw [show ((0 : ℝ) ^ 2 + (0 : ℝ) ^ 2 + (-(0.1 : ℝ)) ^ 2) = (0.1 : ℝ) ^ 2 by norm_num,
        Real.sqrt_sq (by norm_num)]
    simp only [fixedAbdomenAt, hsq, hsq2]
    rw [if_pos (by norm_num), if_pos (by norm_num)]
    intro heq
    have h3 := congrArg (fun w : Vec3 => w.2.2) heq
    simp only [vsc, vzero] at h3
    have hmax : max (0 : ℝ) (-(0.1 : ℝ) / (|(-(0.1 : ℝ))| + 0.01)) = 0 := by
      rw [max_eq_left]
      rw [abs_of_neg (by norm_num : (-(0.1:ℝ)) < 0)]
      norm_num
    rw [hmax] at h3
    have hne : (0.05 * 1.5 * (1 + 0.5 * 0) * Real.exp (-(((0.6:ℝ) - 0) / (1 - 0) - 0.62) ^ 2 / 0.01))
        * (-(0.1 : ℝ) / (0.1 + 1e-6)) ≠ 0 := by
      apply mul_ne_zero
      · apply mul_ne_zero
        · norm_num
        · exact Real.exp_ne_zero _
      · apply div_ne_zero
        · norm_num
        · norm_num
    exact hne h3

/-- C4 witness: the amended theorem applied at the concrete posterior vertex
`(0, 0, -1)` with height 1, where the ultra-detailed field is zero. -/
theorem abdomen_front_effect_behavior_witness :
    (-(1 : ℝ) ≤ 0) ∧ ultraAbdomenAt 1 ((0 : ℝ), (0 : ℝ), -(1 : ℝ)) = vzero :=
  ⟨by norm_num,
    abdomen_front_effect_behavior.1 1 ((0 : ℝ), (0 : ℝ), -(1 : ℝ)) (by norm_num)⟩

/-! Composite morph axes.

`create_fixed_avatar.create_morph_targets` (lines 400-402) computes the three
disease composites as elementwise array expressions over the already computed
primary fields:
`DiabetesEffect = weight * 0.5 + abdomen * 0.8`,
`HypertensionEffect = weight * 0.3 + abdomen * 0.4`,
`HeartDiseaseEffect = weight * 0.2 + posture * 0.5`.
`create_ultra_detailed_avatar.create_morph_targets` (lines 296-314) instead
computes
`diabetes = weight * 0.35 + abdomen * 0.55 + np.zeros_like(weight)` plus a
radial leg-retention increment for vertices with `y_norm < 0.3` and
`dist > 0.02`,
`hypertension = weight * 0.25 + abdomen * 0.35`, and
`heart = weight * 0.45 + posture * 0.35 + abdomen * 0.2`.
The fields are parameters here, exactly as the composites consume the primary
arrays. -/

/-- Fixed-variant composite `weight * 0.5 + abdomen * 0.8` (line 400). -/
def fixedDiabetesEffect (weight abdomen : List Vec3) : List Vec3 :=
  List.zipWith (fun w a => vadd (vsc 0.5 w) (vsc 0.8 a)) weight abdomen

/-- Fixed-variant composite `weight * 0.3 + abdomen * 0.4` (line 401). -/
def fixedHypertensionEffect (weight abdomen : List Vec3) : List Vec3 :=
  List.zipWith (fun w a => vadd (vsc 0.3 w) (vsc 0.4 a)) weight abdomen

/-- Fixed-variant composite `weight * 0.2 + posture * 0.5` (line 402). -/
def fixedHeartDiseaseEffect (weight posture : List Vec3) : List Vec3 :=
  List.zipWith (fun w p => vadd (vsc 0.2 w) (vsc 0.5 p)) weight posture

/-- Leg-retention increment added into the ultra-detailed diabetes composite
(lines 298-305): for `y_norm < 0.3` and radial distance `> 0.02`, a radial
push of magnitude 0.015 on the X and Z components. -/
noncomputable def ultraLegRetention (height : ℝ) (v : Vec3) : Vec3 :=
  let y_norm := v.2.1 / height
  if y_norm < 0.3 then
    let dist := Real.sqrt (v.1 ^ 2 + v.2.2 ^ 2)
    if dist > 0.02 then (v.1 / dist * 0.015, 0, v.2.2 / dist * 0.015)
    else vzero
  else vzero

/-- Ultra-detailed composite
`weight * 0.35 + abdomen * 0.55 + np.zeros_like(weight)` plus the
per-vertex leg-retention increment (lines 296-306); the `zeros_like` summand
is the identity and is dropped. -/
noncomputable def ultraDiabetesEffect (height : ℝ)
    (verts weight abdomen : List Vec3) : List Vec3 :=
  List.zipWith3 (fun v w a => vadd (vadd (vsc 0.35 w) (vsc 0.55 a))
    (ultraLegRetention height v)) verts weight abdomen

/-- Ultra-detailed composite `weight * 0.25 + abdomen * 0.35` (line 309). -/
def ultraHypertensionEffect (weight abdomen : List Vec3) : List Vec3 :=
  List.zipWith (fun w a => vadd (vsc 0.25 w) (vsc 0.35 a)) weight abdomen

/-- Ultra-detailed composite `weight * 0.45 + posture * 0.35 + abdomen * 0.2`
(line 313). -/
def ultraHeartDiseaseEffect (weight posture abdomen : List Vec3) : List Vec3 :=
  List.zipWith3 (fun w p a => vadd (vadd (vsc 0.45 w) (vsc 0.35 p)) (vsc 0.2 a))
    weight posture abdomen

lemma getElem?_zipWith_of_some {α β γ : Type} (f : α → β → γ)
    {as : List α} {bs : List β} {i : ℕ} {x : α} {y : β}
    (hx : as[i]? = some x) (hy : bs[i]? = some y) :
    (List.zipWith f as bs)[i]? = some (f x y) := by
  induction as generalizing bs i with
  | nil => simp at hx
  | cons a as ih =>
    cases bs with
    | nil => simp at hy
    | cons b bs =>
      cases i with
      | zero =>
        simp only [List.getElem?_cons_zero, Option.some.injEq] at hx hy
        subst hx; subst hy
        rw [List.zipWith_cons_cons, List.getElem?_cons_zero]
      | succ i =>
        simp only [List.getElem?_cons_succ] at hx hy ⊢
        rw [List.zipWith_cons_cons, List.getElem?_cons_succ]
        exact ih hx hy

lemma getElem?_zipWith3_of_some {α β γ δ : Type} (f : α → β → γ → δ)
    {as : List α} {bs : List β} {cs : List γ} {i : ℕ} {x : α} {y : β} {z : γ}
    (hx : as[i]? = some x) (hy : bs[i]? = some y) (hz : cs[i]? = some z) :
    (List.zipWith3 f as bs cs)[i]? = some (f x y z) := by
  induction as generalizing bs cs i with
  | nil => simp at hx
  | cons a as ih =>
    cases bs with
    | nil => simp at hy
    | cons b bs =>
      cases cs with
      | nil => simp at hz
      | cons c cs =>
        cases i with
        | zero =>
          simp only [List.getElem?_cons_zero, Option.some.injEq] at hx hy hz
          subst hx; subst hy; subst hz
          rw [List.zipWith3, List.getElem?_cons_zero]
        | succ i =>
          simp only [List.getElem?_cons_succ] at hx hy hz ⊢
          rw [List.zipWith3, List.getElem?_cons_succ]
          exact ih hx hy hz

/-- C1 counterexample: feeding the ultra-detailed hypertension composite the
concrete primary rows `Weight[0] = (1,0,0)` and `AbdomenGirth[0] = (0,0,0)`
yields `(0.25, 0, 0)`, not the claimed `0.3*Weight[0] + 0.4*AbdomenGirth[0]
= (0.3, 0, 0)`: the ultra-detailed variant uses coefficients 0.25/0.35, so
the claimed blends do not hold for every composite field of the repository. -/
theorem composite_blend_claim_fails :
    ultraHypertensionEffect [((1 : ℝ), 0, 0)] [((0 : ℝ), 0, 0)] ≠
      [vadd (vsc 0.3 ((1 : ℝ), 0, 0)) (vsc 0.4 ((0 : ℝ), 0, 0))] := by
  simp only [ultraHypertensionEffect, List.zipWith_cons_cons, List.zipWith_nil_right,
    vadd, vsc, List.cons.injEq, Prod.mk.injEq]
  norm_num

/-- C1, amended: given fixed primary fields, the fixed-variant composites
equal exactly the claimed blends (`0.5/0.8`, `0.3/0.4`, `0.2/0.5`); the
ultra-detailed variant instead uses `0.25/0.35` for hypertension,
`0.45/0.35/0.2` (weight/posture/abdomen) for heart disease, and
`0.35/0.55` for diabetes plus a leg-retention term that vanishes whenever
the vertex is not in the low-height radial zone. -/
theorem composite_blend_formulas (weight abdomen posture verts : List Vec3)
    (height : ℝ) (i : ℕ) (w a p v : Vec3)
    (hw : weight[i]? = some w) (ha : abdomen[i]? = some a)
    (hp : posture[i]? = some p) (hv : verts[i]? = some v)
    (hleg : ¬ (v.2.1 / height < 0.3 ∧
      Real.sqrt (v.1 ^ 2 + v.2.2 ^ 2) > 0.02)) :
    (fixedDiabetesEffect weight abdomen)[i]? =
        some (vadd (vsc 0.5 w) (vsc 0.8 a)) ∧
      (fixedHypertensionEffect weight abdomen)[i]? =
        some (vadd (vsc 0.3 w) (vsc 0.4 a)) ∧
      (fixedHeartDiseaseEffect weight posture)[i]? =
        some (vadd (vsc 0.2 w) (vsc 0.5 p)) ∧
      (ultraHypertensionEffect weight abdomen)[i]? =
        some (vadd (vsc 0.25 w) (vsc 0.35 a)) ∧
      (ultraHeartDiseaseEffect weight posture abdomen)[i]? =
        some (vadd (vadd (vsc 0.45 w) (vsc 0.35 p)) (vsc 0.2 a)) ∧
      (ultraDiabetesEffect height verts weight abdomen)[i]? =
        some (vadd (vsc 0.35 w) (vsc 0.55 a)) := by
  have hret : ultraLegRetention height v = vzero := by
    simp only [ultraLegRetention]
    by_cases hy : v.2.1 / height < 0.3
    · rw [if_pos hy, if_neg]
      intro hdist
      exact hleg ⟨hy, hdist⟩
    · rw [if_neg hy]
  refine ⟨getElem?_zipWith_of_some _ hw ha, getElem?_zipWith_of_some _ hw ha,
    getElem?_zipWith_of_some _ hw hp, getElem?_zipWith_of_some _ hw ha,
    getElem?_zipWith3_of_some _ hw hp ha, ?_⟩
  rw [ultraDiabetesEffect, getElem?_zipWith3_of_some _ hv hw ha, hret]
  simp [vadd, vzero]

/-- C1 witness: the amended composite theorem applied to singleton fields at
index 0 with a vertex outside the leg-retention zone. -/
theorem composite_blend_formulas_witness :
    ([((1 : ℝ), 0, 0)][0]? = some ((1 : ℝ), 0, 0)) ∧
      ¬ ((((0 : ℝ), 5, 0) : Vec3).2.1 / 1 < 0.3 ∧
        Real.sqrt ((((0 : ℝ), 5, 0) : Vec3).1 ^ 2 +
          (((0 : ℝ), 5, 0) : Vec3).2.2 ^ 2) > 0.02) ∧
      (ultraHypertensionEffect [((1 : ℝ), 0, 0)] [((1 : ℝ), 0, 0)])[0]? =
        some (vadd (vsc 0.25 ((1 : ℝ), 0, 0)) (vsc 0.35 ((1 : ℝ), 0, 0))) := by
  have hleg : ¬ ((((0 : ℝ), 5, 0) : Vec3).2.1 / 1 < 0.3 ∧
      Real.sqrt ((((0 : ℝ), 5, 0) : Vec3).1 ^ 2 +
        (((0 : ℝ), 5, 0) : Vec3).2.2 ^ 2) > 0.02) := by
    intro hcon
    have := hcon.1
    norm_num at this
  refine ⟨rfl, hleg, ?_⟩
  exact (composite_blend_formulas [((1 : ℝ), 0, 0)] [((1 : ℝ), 0, 0)]
    [((1 : ℝ), 0, 0)] [((0 : ℝ), 5, 0)] 1 0 _ _ _ _ rfl rfl rfl rfl hleg).2.2.2.1

/-! Asset serializer.

`export_glb` in `create_ultra_detailed_avatar.py` (lines 318-395) builds one
`bytearray` by appending the position bytes, normal bytes, index bytes and
then the bytes of each morph target in dictionary order, recording `len(buffer)`
before each append as the byte offset of that section; `export_to_glb` in
`create_fixed_avatar.py` (lines 406-511) concatenates the same sections in
the same order and advances a running `offset` by the byte length of each section,
yielding the identical bufferView list.  Sections are modelled as the raw
byte strings the numpy `tobytes()` calls produce (bytes as `ℕ` values), since
the layout bookkeeping never inspects the bytes themselves. -/
abbrev ByteList := List ℕ

/-- Concatenation of all morph-target byte sections in declared order. -/
def morphConcat (morphs : List (String × ByteList)) : ByteList :=
  morphs.flatMap Prod.snd

/-- The single binary blob: positions, normals, indices, then the morph
sections. -/
def glbBlob (pos nor idx : ByteList) (morphs : List (String × ByteList)) : ByteList :=
  pos ++ nor ++ idx ++ morphConcat morphs

/-- Morph-target bufferViews: each records the running buffer length at the
moment its section is appended (`m_offs[name] = len(buffer)`), paired with
the byte length of its section. -/
def morphViews (base : ℕ) : List (String × ByteList) → List (ℕ × ℕ)
  | [] => []
  | (_, d) :: rest => (base, d.length) :: morphViews (base + d.length) rest

/-- The full bufferView list as `(byteOffset, byteLength)` pairs, in the
fixed order positions, normals, indices, morph targets. -/
def glbViews (pos nor idx : ByteList) (morphs : List (String × ByteList)) :
    List (ℕ × ℕ) :=
  (0, pos.length) :: (pos.length, nor.length) ::
    (pos.length + nor.length, idx.length) ::
    morphViews (pos.length + nor.length + idx.length) morphs

/-- The parts of the written glTF container the claims are about: binary
blob, bufferViews, the bufferView index of each accessor, the primitive
`targets` list (`POSITION` accessor index per morph target), the initial
weights array, and the `extras.targetNames` metadata list. -/
structure GLB where
  blob : ByteList
  views : List (ℕ × ℕ)
  accViews : List ℕ
  targets : List ℕ
  weights : List ℚ
  targetNames : List String

/-- The exported container: accessor `k` uses bufferView `k` (the source
appends each accessor right after its bufferView, so `bufferView=bvi` with
`bvi = len(bv)`); morph target `k` gets accessor `3 + k`; the initial
weights are `[0.0] * len(morphs)`; `targetNames` is the dict key list. -/
def export_glb (pos nor idx : ByteList) (morphs : List (String × ByteList)) : GLB :=
  { blob := glbBlob pos nor idx morphs
    views := glbViews pos nor idx morphs
    accViews := 0 :: 1 :: 2 :: (List.range morphs.length).map (fun k => 3 + k)
    targets := (List.range morphs.length).map (fun k => 3 + k)
    weights := List.replicate morphs.length 0
    targetNames := morphs.map Prod.fst }

/-- The baseline variant of `main` (`create_ultra_detailed_avatar.py` lines
444-446): the same container object with the weights reset to all zeros. -/
def baselineOf (g : GLB) : GLB :=
  { g with weights := List.replicate g.targetNames.length 0 }

/-- The clinical weight vector of `main` (lines 448-452): start from
`[0.0] * len(morphs)` and override `Weight`, `AbdomenGirth` and
`DiabetesEffect` by position via `names.index(...)`. -/
def clinicalWeights (names : List String) : List ℚ :=
  (((List.replicate names.length (0 : ℚ)).set (names.indexOf "Weight") 0.6).set
      (names.indexOf "AbdomenGirth") 0.7).set (names.indexOf "DiabetesEffect") 0.5

/-- The clinical variant of `main` (lines 448-453): the same container object
with only the weights replaced. -/
def clinicalOf (g : GLB) : GLB :=
  { g with weights := clinicalWeights g.targetNames }

lemma morphViews_length (base : ℕ) (ms : List (String × ByteList)) :
    (morphViews base ms).length = ms.length := by
  induction ms generalizing base with
  | nil => rfl
  | cons m rest ih =>
    obtain ⟨s, d⟩ := m
    simp [morphViews, ih]

lemma morphViews_snd_sum (base : ℕ) (ms : List (String × ByteList)) :
    ((morphViews base ms).map Prod.snd).sum = (morphConcat ms).length := by
  induction ms generalizing base with
  | nil => rfl
  | cons m rest ih =>
    obtain ⟨s, d⟩ := m
    simp [morphViews, morphConcat, List.length_append, ih]

lemma morphViews_get_fst (ms : List (String × ByteList)) :
    ∀ (base k : ℕ) (hk : k < (morphViews base ms).length),
      ((morphViews base ms).get ⟨k, hk⟩).1 =
        base + (((morphViews base ms).take k).map Prod.snd).sum := by
  induction ms with
  | nil => intro base k hk; simp [morphViews] at hk
  | cons m rest ih =>
    obtain ⟨s, d⟩ := m
    intro base k hk
    cases k with
    | zero => simp [morphViews]
    | succ k =>
      have hk2 : k < (morphViews (base + d.length) rest).length := by
        simpa [morphViews] using hk
      have := ih (base + d.length) k hk2
      simp only [morphViews, List.get_cons_succ, List.take_succ_cons, List.map_cons,
        List.sum_cons] at this ⊢
      rw [this]
      ring

/-- C2: in every container written by the serializer, the bufferViews appear
in the fixed order positions, normals, indices, then one per morph target in
declared order, and the byte offset of each view equals the sum of the byte
lengths of all views before it; the byte lengths sum to the blob length, so
the sections tile the blob contiguously with no gaps or overlaps. -/
theorem serializer_views_tile_blob (pos nor idx : ByteList)
    (morphs : List (String × ByteList)) (k : ℕ)
    (hk : k < (glbViews pos nor idx morphs).length) :
    ((glbViews pos nor idx morphs).get ⟨k, hk⟩).1 =
        (((glbViews pos nor idx morphs).take k).map Prod.snd).sum ∧
      ((glbViews pos nor idx morphs).map Prod.snd).sum =
        (glbBlob pos nor idx morphs).length := by
  constructor
  · rcases k with _ | _ | _ | j
    · simp [glbViews]
    · simp [glbViews]
    · simp [glbViews]
    · have hj : j < (morphViews (pos.length + nor.length + idx.length) morphs).length := by
        simpa [glbViews] using hk
      have h := morphViews_get_fst morphs (pos.length + nor.length + idx.length) j hj
      simp only [glbViews, List.get_cons_succ, List.take_succ_cons, List.map_cons,
        List.sum_cons] at h ⊢
      rw [h]
      ring
  · simp only [glbViews, glbBlob, List.map_cons, List.sum_cons,
      morphViews_snd_sum, List.length_append]
    omega

/-- C2 witness: the tiling theorem applied to a concrete container with
two position bytes, one normal byte, no index bytes and one one-byte morph
target, at view index 3. -/
theorem serializer_views_tile_blob_witness :
    3 < (glbViews [1, 2] [3] [] [("Weight", [7])]).length ∧
      ((glbViews [1, 2] [3] [] [("Weight", [7])]).map Prod.snd).sum =
        (glbBlob [1, 2] [3] [] [("Weight", [7])]).length :=
  ⟨by decide,
    (serializer_views_tile_blob [1, 2] [3] [] [("Weight", [7])] 3 (by decide)).2⟩

/-- C9: in the exported container and in each re-saved variant (baseline and
clinical), the weights array has exactly one entry per morph target: its
length equals the length of the primitive `targets` list and of the
`targetNames` metadata list, including after the clinical override. -/
theorem exported_weights_length_invariant (pos nor idx : ByteList)
    (morphs : List (String × ByteList)) :
    ((export_glb pos nor idx morphs).weights).length =
        ((export_glb pos nor idx morphs).targets).length ∧
      ((export_glb pos nor idx morphs).targets).length =
        ((export_glb pos nor idx morphs).targetNames).length ∧
      ((baselineOf (export_glb pos nor idx morphs)).weights).length =
        ((export_glb pos nor idx morphs).targets).length ∧
      ((clinicalOf (export_glb pos nor idx morphs)).weights).length =
        ((export_glb pos nor idx morphs).targets).length := by
  simp [export_glb, baselineOf, clinicalOf, clinicalWeights]

lemma clinicalWeights_weight_entry_ne_some_zero (names : List String)
    (hW : "Weight" ∈ names) :
    (clinicalWeights names)[names.indexOf "Weight"]? ≠
      some 0 := by
  have hiW : names.indexOf "Weight" < names.length := List.indexOf_lt_length.mpr hW
  rw [clinicalWeights, List.getElem?_set, List.getElem?_set, List.getElem?_set]
  split_ifs <;>
    simp_all [List.getElem?_replicate, hiW] <;> norm_num

/-- C6: the clinical variant is produced from the already exported container
by replacing only the weights array (the source mutates
`gltf.meshes[0].weights` and saves the same object again): the binary blob,
bufferViews, accessor wiring, `targets` list and `targetNames` metadata are
byte-for-byte identical between the morphable and clinical containers, no
geometry or morph synthesis is re-run, and (whenever a `Weight` target
exists) the declared initial weights arrays do differ. -/
theorem variant_export_shares_buffers (pos nor idx : ByteList)
    (morphs : List (String × ByteList))
    (hW : "Weight" ∈ morphs.map Prod.fst) :
    (clinicalOf (export_glb pos nor idx morphs)).blob =
        (export_glb pos nor idx morphs).blob ∧
      (clinicalOf (export_glb pos nor idx morphs)).views =
        (export_glb pos nor idx morphs).views ∧
      (clinicalOf (export_glb pos nor idx morphs)).accViews =
        (export_glb pos nor idx morphs).accViews ∧
      (clinicalOf (export_glb pos nor idx morphs)).targets =
        (export_glb pos nor idx morphs).targets ∧
      (clinicalOf (export_glb pos nor idx morphs)).targetNames =
        (export_glb pos nor idx morphs).targetNames ∧
      (clinicalOf (export_glb pos nor idx morphs)).weights ≠
        (export_glb pos nor idx morphs).weights := by
  refine ⟨rfl, rfl, rfl, rfl, rfl, ?_⟩
  intro heq
  have hne := clinicalWeights_weight_entry_ne_some_zero (morphs.map Prod.fst) hW
  have hiW : (morphs.map Prod.fst).indexOf "Weight" < (morphs.map Prod.fst).length :=
    List.indexOf_lt_length.mpr hW
  have hq := congrArg
    (fun l : List ℚ => l[(morphs.map Prod.fst).indexOf "Weight"]?) heq
  simp only [clinicalOf, export_glb] at hq
  apply hne
  rw [hq]
  rw [List.getElem?_replicate]
  simp only [List.length_map] at hiW
  simp [hiW]

/-- C6 witness: the variant theorem applied to the concrete export with one
morph target named Weight and empty byte sections. -/
theorem variant_export_shares_buffers_witness :
    ("Weight" ∈ ([(("Weight" : String), ([] : ByteList))].map Prod.fst)) ∧
      (clinicalOf (export_glb [] [] [] [("Weight", [])])).weights ≠
        (export_glb [] [] [] [("Weight", [])]).weights :=
  ⟨by simp,
    (variant_export_shares_buffers [] [] [] [("Weight", [])] (by simp)).2.2.2.2.2⟩

lemma morphViews_getElem?_of {ms : List (String × ByteList)} :
    ∀ (base : ℕ) {i : ℕ} {m : String × ByteList}, ms[i]? = some m →
      (morphViews base ms)[i]? =
        some (base + ((ms.take i).map (fun q => q.2.length)).sum, m.2.length) := by
  induction ms with
  | nil => intro base i m hm; simp at hm
  | cons hd rest ih =>
    obtain ⟨s, d⟩ := hd
    intro base i m hm
    cases i with
    | zero =>
      simp only [List.getElem?_cons_zero, Option.some.injEq] at hm
      subst hm
      simp [morphViews]
    | succ i =>
      simp only [List.getElem?_cons_succ] at hm
      have h := ih (base + d.length) hm
      simp only [morphViews, List.getElem?_cons_succ, List.take_succ_cons,
        List.map_cons, List.sum_cons] at h ⊢
      rw [h, Nat.add_assoc]

lemma morphConcat_segment {ms : List (String × ByteList)} :
    ∀ {i : ℕ} {m : String × ByteList}, ms[i]? = some m →
      ((morphConcat ms).drop (((ms.take i).map (fun q => q.2.length)).sum)).take
        m.2.length = m.2 := by
  induction ms with
  | nil => intro i m hm; simp at hm
  | cons hd rest ih =>
    obtain ⟨s, d⟩ := hd
    intro i m hm
    cases i with
    | zero =>
      simp only [List.getElem?_cons_zero, Option.some.injEq] at hm
      subst hm
      simp only [morphConcat, List.flatMap_cons, List.take_zero, List.map_nil,
        List.sum_nil, List.drop_zero]
      exact List.take_left _ _
    | succ i =>
      simp only [List.getElem?_cons_succ] at hm
      have h := ih hm
      simp only [morphConcat, List.flatMap_cons, List.take_succ_cons,
        List.map_cons, List.sum_cons] at h ⊢
      rw [List.drop_append]
      exact h

lemma glbBlob_morph_segment (pos nor idx : ByteList)
    {ms : List (String × ByteList)} {i : ℕ} {m : String × ByteList}
    (hm : ms[i]? = some m) :
    ((glbBlob pos nor idx ms).drop (pos.length + nor.length + idx.length +
        ((ms.take i).map (fun q => q.2.length)).sum)).take m.2.length = m.2 := by
  rw [glbBlob, Nat.add_assoc (pos.length + nor.length) idx.length,
    Nat.add_assoc pos.length nor.length, List.append_assoc, List.append_assoc,
    List.drop_append, List.drop_append, List.drop_append]
  exact morphConcat_segment hm

/-- C10: the three parallel orderings of an exported container are
index-consistent and all derive from the single ordered morph list fixed at
synthesis time: for every index `i`, the `i`-th `targetNames` entry is the
name of the `i`-th morph, the `i`-th `targets` entry is accessor `3 + i`, accessor
`3 + i` reads bufferView `3 + i`, that bufferView locates exactly the `i`-th
byte section of the `i`-th morph inside the blob (offset = header sections plus the byte
lengths of the previous morphs, and the located bytes are those of the morph),
and the `i`-th initial weight is the declared initial weight `0` of that target. -/
theorem exported_target_metadata_consistent (pos nor idx : ByteList)
    (morphs : List (String × ByteList)) (i : ℕ) (m : String × ByteList)
    (hm : morphs[i]? = some m) :
    ((export_glb pos nor idx morphs).targetNames)[i]? = some m.1 ∧
      ((export_glb pos nor idx morphs).targets)[i]? = some (3 + i) ∧
      ((export_glb pos nor idx morphs).accViews)[3 + i]? = some (3 + i) ∧
      ((export_glb pos nor idx morphs).views)[3 + i]? =
        some (pos.length + nor.length + idx.length +
          ((morphs.take i).map (fun q => q.2.length)).sum, m.2.length) ∧
      (((export_glb pos nor idx morphs).blob).drop
          (pos.length + nor.length + idx.length +
            ((morphs.take i).map (fun q => q.2.length)).sum)).take m.2.length
        = m.2 ∧
      ((export_glb pos nor idx morphs).weights)[i]? = some 0 := by
  have hi : i < morphs.length := by
    by_contra hge
    push_neg at hge
    rw [List.getElem?_eq_none hge] at hm
    cases hm
  have e1 : 3 + i = (2 + i) + 1 := by omega
  have e2 : 2 + i = (1 + i) + 1 := by omega
  have e3 : 1 + i = i + 1 := by omega
  refine ⟨?_, ?_, ?_, ?_, ?_, ?_⟩
  · simp only [export_glb]
    rw [List.getElem?_map, hm]
    rfl
  · simp only [export_glb]
    rw [List.getElem?_map]
    simp [List.getElem?_range, hi]
  · simp only [export_glb]
    rw [e1, List.getElem?_cons_succ, e2, List.getElem?_cons_succ, e3,
      List.getElem?_cons_succ, List.getElem?_map]
    rw [List.getElem?_range hi]
    show some (3 + i) = some (i + 1 + 1 + 1)
    rw [Option.some.injEq]
    omega
  · simp only [export_glb, glbViews]
    rw [e1, List.getElem?_cons_succ, e2, List.getElem?_cons_succ, e3,
      List.getElem?_cons_succ]
    exact morphViews_getElem?_of _ hm
  · simp only [export_glb]
    exact glbBlob_morph_segment pos nor idx hm
  · simp only [export_glb]
    rw [List.getElem?_replicate]
    simp [hi]

/-- C10 witness: the consistency theorem applied to the concrete export with
a single one-byte morph target at index 0. -/
theorem exported_target_metadata_consistent_witness :
    (([(("Weight" : String), ([9] : ByteList))] : List (String × ByteList))[0]? =
        some ("Weight", [9])) ∧
      ((export_glb [1] [2] [3] [("Weight", [9])]).targetNames)[0]? = some "Weight" :=
  ⟨rfl,
    (exported_target_metadata_consistent [1] [2] [3] [("Weight", [9])] 0
      ("Weight", [9]) rfl).1⟩
